import Mathlib

/-!
Shallow embedding of the request-processing core of the `roa` HTTP middleware
framework: the onion middleware chain with its `Next` continuation, the App
driver with its fallback status handler, the path/method router, the
type-erased per-request store, and the multipart error mapping.

Pure control flow is embedded as explicit state passing: a middleware is a
state transformer receiving the context state and the continuation for the
rest of the chain; `await`-ing a `Next` is applying that continuation.
Definitions embedded from files present in the corpus carry a reference to
the source location; parts of the repository whose files are absent from the
corpus (next.rs, app.rs, context.rs, err.rs, handler.rs, dispatcher.rs) are
modelled from the specification and say so in their doc comment.
-/

namespace Roa

/-- Status (err.rs is absent from the corpus). Modelled from the spec:
"a typed failure carrying an HTTP status code, a message, and an exposure
flag"; the field names follow the uses in src (e.g. `err.status_code` in
middleware.rs doc tests, `Error::new(code, msg, expose)` in roa-multipart). -/
structure Status where
  status_code : Nat
  message : String
  expose : Bool
deriving DecidableEq, Repr

/-- Constructor mirroring `Error::new(status_code, message, expose)`. -/
def Status.new (code : Nat) (msg : String) (exp : Bool) : Status :=
  ⟨code, msg, exp⟩

/-- The terminal result of a middleware or endpoint: `Result<(), Status>`. -/
abbrev Result := Except Status Unit

/-- Modelled from the spec: the `throw!` macro of the absent err.rs builds an
exposed error from a status code and a message (§7: exposable errors surface
their message verbatim). -/
def throwErr (code : Nat) (msg : String) : Result :=
  .error (Status.new code msg true)

/-- Modelled from the spec: §4.2 "a middleware is polymorphic over the
capability: given a mutable Context and a Next continuation, produce a
terminal Result". In the embedding a middleware maps the context state and
the continuation for the remainder of the chain to a result and a new state. -/
def Middleware (σ : Type) : Type :=
  σ → (σ → Result × σ) → Result × σ

/-- Modelled from the spec: §6 "Endpoint contract: a callable taking
(mutable Context reference) and returning a Result". -/
def Endpoint (σ : Type) : Type :=
  σ → Result × σ

/-- Modelled from the spec: next.rs is absent from the corpus; its `last`
continuation is the Next used "when there is no further middleware": it
"resolves immediately and successfully (identity behavior)" (§4.2). -/
def last {σ : Type} : σ → Result × σ :=
  fun s => (.ok (), s)

/-- Embedding of the fake middleware (src/roa-core/src/middleware.rs,
lines 140-147, `impl Middleware for ()`): it just awaits its next. -/
def fakeMiddleware {σ : Type} : Middleware σ :=
  fun s next => next s

/-- Embedding of the fake endpoint (src/roa-core/src/middleware.rs,
lines 149-156, `impl Endpoint for ()`): it returns `Ok(())` untouched. -/
def fakeEndpoint {σ : Type} : Endpoint σ :=
  fun s => (.ok (), s)

/-- Modelled from the spec: app.rs and next.rs are absent from the corpus;
§4.3 "builds the full Next chain (outer-to-inner order = registration order:
first-registered middleware is outermost)". Each middleware receives as its
Next the chain of the remaining middlewares ending in the terminal endpoint. -/
def chain {σ : Type} : List (Middleware σ) → Endpoint σ → σ → Result × σ
  | [], ep => ep
  | mw :: rest, ep => fun s => mw s (chain rest ep)

/-- A logging middleware: appends `name ++ "-pre"` to the log, awaits its
next, appends `name ++ "-post"`, and propagates the result of next. -/
def logMw (name : String) : Middleware (List String) :=
  fun s next =>
    let r := next (s ++ [name ++ "-pre"])
    (r.1, r.2 ++ [name ++ "-post"])

/-- A logging endpoint: appends `"E"` to the log and succeeds. -/
def logEp : Endpoint (List String) :=
  fun s => (.ok (), s ++ ["E"])

/-- A middleware that increments the mutation counter and awaits its next. -/
def incMw : Middleware Nat :=
  fun s next => next (s + 1)

/-- A short-circuiting middleware: it returns without awaiting its next. -/
def scMw : Middleware Nat :=
  fun s _ => (.ok (), s)

/-- An endpoint that increments the mutation counter. -/
def incEp : Endpoint Nat :=
  fun s => (.ok (), s + 1)

/-- Modelled from the spec: next.rs is absent from the corpus. In src, `Next`
is `&mut dyn Unpin + Future` (middleware.rs line 234) and reuse is prevented
by move semantics; §9 asks to "enforce single-use via ownership transfer or
an explicit consumed-flag check that fails fast on reuse". The embedding
carries the explicit consumed flag. -/
structure NextHandle (σ : Type) where
  consumed : Bool
  run : σ → Result × σ

/-- Modelled from the spec: §7 taxonomy (c), a reused Next is an
internal/contract-violation error: "status 5xx-class, non-exposable". -/
def reusedNextStatus : Status :=
  Status.new 500 "Next handle already consumed: reused Next" false

/-- Awaiting a Next handle: a fresh handle runs the remainder of the chain
and becomes consumed; a consumed handle fails fast with `reusedNextStatus`. -/
def awaitNext {σ : Type} (h : NextHandle σ) (s : σ) :
    (Result × σ) × NextHandle σ :=
  if h.consumed then ((.error reusedNextStatus, s), h)
  else (h.run s, { h with consumed := true })

/-- HTTP methods (the `Method` type of the http crate, at its interface). -/
inductive Method where
  | GET
  | POST
  | PUT
  | DELETE
  | HEAD
  | OPTIONS
  | CONNECT
  | PATCH
  | TRACE
deriving DecidableEq, Repr

/-- Display form of a method, as used by `format!("Method {} not allowed")`. -/
def Method.toString : Method → String
  | .GET => "GET"
  | .POST => "POST"
  | .PUT => "PUT"
  | .DELETE => "DELETE"
  | .HEAD => "HEAD"
  | .OPTIONS => "OPTIONS"
  | .CONNECT => "CONNECT"
  | .PATCH => "PATCH"
  | .TRACE => "TRACE"

/-- Embedding of `method_not_allowed` (src/roa-router/src/endpoints.rs,
lines 7-12): it throws `METHOD_NOT_ALLOWED` (405) with the message
`format!("Method {} not allowed", method)`, where `method` is the requested
method. -/
def method_not_allowed (m : Method) : Result :=
  throwErr 405 ("Method " ++ m.toString ++ " not allowed")

/-- A route-pattern segment: literal string, named variable, or trailing
wildcard (spec §3, "Route entry"). -/
inductive Segment where
  | lit (s : String)
  | varSeg (name : String)
  | wild (name : String)
deriving DecidableEq, Repr

/-- Captured route variables: name to captured text. -/
abbrev Caps := List (String × String)

/-- Modelled from the spec: the router matching engine (dispatcher.rs is
absent from the corpus), §4.4 steps 1-2: a literal segment must equal the
path segment, a variable segment captures one path segment, and a trailing
wildcard captures the whole remaining suffix joined by the separator; a
wildcard that is not last never matches (it is rejected at build time). -/
def matchSegs : List Segment → List String → Option Caps
  | [], path =>
    match path with
    | [] => some []
    | _ :: _ => none
  | .lit l :: ps, path =>
    match path with
    | [] => none
    | x :: xs => if l = x then matchSegs ps xs else none
  | .varSeg n :: ps, path =>
    match path with
    | [] => none
    | x :: xs => (matchSegs ps xs).map (fun caps => (n, x) :: caps)
  | .wild n :: ps, path =>
    match ps with
    | [] => some [(n, String.intercalate "/" path)]
    | _ :: _ => none

/-- Priority rank of a segment kind: literal outranks variable outranks
wildcard (spec §4.4 step 3); smaller rank is higher priority. -/
def segRank : Segment → Nat
  | .lit _ => 0
  | .varSeg _ => 1
  | .wild _ => 2

/-- Rank word of a pattern, compared left to right. -/
def ranksOf (segs : List Segment) : List Nat :=
  segs.map segRank

/-- Modelled from the spec: §4.4 step 3, priority is decided
"segment-by-segment left-to-right, first point of difference decides"; a
pattern that ends while the other continues (exact match versus a trailing
wildcard consuming nothing) takes priority. -/
def rankLt : List Nat → List Nat → Bool
  | [], [] => false
  | [], _ :: _ => true
  | _ :: _, [] => false
  | a :: as, b :: bs =>
    if a < b then true
    else if b < a then false
    else rankLt as bs

/-- A route entry: a pattern plus a mapping from method to endpoint
(spec §3, "Route entry"). -/
structure RouteEntry (σ : Type) where
  segs : List Segment
  methods : List (Method × Endpoint σ)

/-- First endpoint registered for a method in a method map. -/
def lookupMethod {σ : Type} : List (Method × Endpoint σ) → Method → Option (Endpoint σ)
  | [], _ => none
  | (m', ep) :: rest, m => if m' = m then some ep else lookupMethod rest m

/-- Modelled from the spec: the candidates of §4.4 steps 1-2, each entry
whose pattern structurally matches the path, with its captures. -/
def candidates {σ : Type} (es : List (RouteEntry σ)) (path : List String) :
    List (RouteEntry σ × Caps) :=
  es.filterMap (fun e => (matchSegs e.segs path).map (fun caps => (e, caps)))

/-- Of two matching candidates, keep the one with the higher-priority rank
word (the earlier one on a tie). -/
def betterCand {σ : Type} (best c : RouteEntry σ × Caps) : RouteEntry σ × Caps :=
  if rankLt (ranksOf c.1.segs) (ranksOf best.1.segs) then c else best

/-- Modelled from the spec: §4.4 step 3, among the candidates that
structurally match the path, the one with the highest priority wins. -/
def resolve {σ : Type} (es : List (RouteEntry σ)) (path : List String) :
    Option (RouteEntry σ × Caps) :=
  match candidates es path with
  | [] => none
  | c :: cs => some (cs.foldl betterCand c)

/-- The router-facing context state: the request-scoped variable store the
captures are written into. -/
abbrev RCtx := List (String × String)

/-- Modelled from the spec: the 404 outcome of §4.4 step 4 when no pattern
matches the path at all. -/
def notFoundResult : Result :=
  throwErr 404 "404 Not Found"

/-- Modelled from the spec: dispatcher.rs is absent from the corpus; §4.4
step 4: on a structural match, if the method is present dispatch to its
endpoint after first writing every captured variable into the store; if the
path matched but the method is absent, fail via `method_not_allowed`; if no
pattern matches, fail with the not-found outcome. -/
def dispatch (es : List (RouteEntry RCtx)) (m : Method) (path : List String)
    (st : RCtx) : Result × RCtx :=
  match resolve es path with
  | none => (notFoundResult, st)
  | some (e, caps) =>
    match lookupMethod e.methods m with
    | some ep => ep (caps ++ st)
    | none => (method_not_allowed m, st)

/-- The literal pattern `/users/me`. -/
def usersMeSegs : List Segment :=
  [.lit "users", .lit "me"]

/-- An entry for pattern `/users/:id`, registered for GET. -/
def usersIdEntry : RouteEntry RCtx :=
  ⟨[.lit "users", .varSeg "id"], [(.GET, fakeEndpoint)]⟩

/-- An entry for the literal pattern `/users/me`, registered for GET. -/
def usersMeEntry : RouteEntry RCtx :=
  ⟨usersMeSegs, [(.GET, fakeEndpoint)]⟩

/-- An entry for pattern `/users`, registered only for GET. -/
def usersOnlyGet : RouteEntry RCtx :=
  ⟨[.lit "users"], [(.GET, fakeEndpoint)]⟩

/-- An entry for the trailing-wildcard pattern of the serve-file test
(src/tests/serve-file.rs, serve_router_wildcard): `/files/` followed by a
wildcard capturing `path`, registered for GET. -/
def filesEntry : RouteEntry RCtx :=
  ⟨[.lit "files", .wild "path"], [(.GET, fakeEndpoint)]⟩

/-- Whether the first character list starts the second one. -/
def leadMatch : List Char → List Char → Bool
  | [], _ => true
  | _ :: _, [] => false
  | d :: ds, c :: cs => if d = c then leadMatch ds cs else false

/-- Whether the first character list occurs inside the second one. -/
def occursIn (sub : List Char) : List Char → Bool
  | [] => leadMatch sub []
  | c :: cs => if leadMatch sub (c :: cs) then true else occursIn sub cs

/-- Whether `sub` occurs as a substring of `s`. -/
def containsSub (s sub : String) : Bool :=
  occursIn sub.data s.data

/-- A complete HTTP response at the model's granularity: the status code and
the message that reaches the client. -/
structure Response where
  status : Nat
  message : String
deriving DecidableEq, Repr

/-- A fault reaching the top of the chain: a categorized Status, or an
uncategorized internal fault. -/
inductive Fault where
  | status (s : Status)
  | uncategorized (detail : String)
deriving DecidableEq, Repr

/-- Modelled from the spec: §4.3, the App maps "uncategorized faults to a
generic 500-equivalent with expose=false". -/
def categorize : Fault → Status
  | .status s => s
  | .uncategorized _ => Status.new 500 "Internal Server Error" false

/-- Modelled from the spec: handler.rs is absent from the corpus; its
fallback `default_status_handler` turns a Status into a complete Response;
per §7, exposable errors surface their message verbatim while non-exposable
errors surface only a generic message. -/
def default_status_handler (s : Status) : Response :=
  ⟨s.status_code, if s.expose then s.message else "Internal Server Error"⟩

/-- Modelled from the spec: app.rs and service.rs are absent from the corpus;
§4.3 `serve(request) -> response` drives the chain and, on an error reaching
the top, invokes the fallback status handler to synthesize a Response, never
propagating the error outward. -/
def serve {σ : Type} (run : σ → Except Fault Unit × σ) (respOf : σ → Response)
    (s : σ) : Response :=
  match run s with
  | (.ok _, s2) => respOf s2
  | (.error f, _) => default_status_handler (categorize f)

/-- A chain that fails with an uncategorized internal fault. -/
def faultyRun : Nat → Except Fault Unit × Nat :=
  fun n => (.error (.uncategorized "worker panicked"), n)

/-- Response extraction used by the `serve` examples. -/
def constResp : Nat → Response :=
  fun _ => ⟨200, "OK"⟩

/-- A value in the request-scoped store, tagged with its type at insertion
(spec §9: "a mapping from string key to a tagged union/any-value cell, with a
type check performed at retrieval time"). -/
structure TaggedValue where
  tag : String
  value : String
deriving DecidableEq, Repr

/-- The type-erased request-scoped store (context.rs is absent from the
corpus); most recent writes sit at the front. -/
abbrev Bucket := List (String × TaggedValue)

/-- First value stored under a key, i.e. the most recent write. -/
def bucketFind : Bucket → String → Option TaggedValue
  | [], _ => none
  | (k', tv) :: rest, k => if k' = k then some tv else bucketFind rest k

/-- Modelled from the spec: §4.1 `store(key, value) -> Option<previous>`; the
new binding shadows the old one (last write wins). -/
def bucketStore (b : Bucket) (k : String) (tv : TaggedValue) :
    Option TaggedValue × Bucket :=
  (bucketFind b k, (k, tv) :: b)

/-- Outcome of a typed load from the store. -/
inductive LoadOutcome where
  | missing
  | typeMismatch (requested stored : String)
  | loaded (value : String)
deriving DecidableEq, Repr

/-- Modelled from the spec: §4.1, a load is type-checked and "a type-tag
mismatch on load is reported as a distinguishable error kind (programmer
error / contract violation), not silently coerced". -/
def bucketLoad (b : Bucket) (k : String) (tag : String) : LoadOutcome :=
  match bucketFind b k with
  | none => .missing
  | some tv => if tv.tag = tag then .loaded tv.value else .typeMismatch tag tv.tag

/-- The kinds of io::Error used by the multipart mapping. -/
inductive IoErrorKind where
  | unexpectedEof
  | other
deriving DecidableEq, Repr

/-- Model of std::io::Error at the interface used by roa-multipart: either a
raw I/O error carried by the payload stream, or an error wrapping a roa
`Status` as built by `io::Error::new(kind, error)`. -/
inductive IoError where
  | raw (kind : IoErrorKind) (message : String)
  | wrapping (kind : IoErrorKind) (inner : Status)
deriving DecidableEq, Repr

/-- Model of actix PayloadError at the interface used in the corpus. -/
inductive PayloadError where
  | Io (e : IoError)
  | Incomplete (e : Option IoError)
  | Overflow
  | UnknownLength
deriving DecidableEq, Repr

/-- Model of actix MultipartError at the interface used in the corpus. -/
inductive MultipartError where
  | Payload (p : PayloadError)
  | NoContentType
  | ParseContentType
  | Boundary
  | Nested
  | Incomplete
  | NotConsumed
deriving DecidableEq, Repr

/-- Display text of a payload error (model of its Display instance). -/
def payloadErrorText : PayloadError → String
  | .Io _ => "payload io error"
  | .Incomplete _ => "payload reached EOF before completing"
  | .Overflow => "payload overflow"
  | .UnknownLength => "payload length unknown"

/-- Display text of a multipart error (model of its Display instance). -/
def multipartErrorText : MultipartError → String
  | .Payload p => payloadErrorText p
  | .NoContentType => "no content type"
  | .ParseContentType => "cannot parse content type"
  | .Boundary => "multipart boundary is not found"
  | .Nested => "nested multipart is not supported"
  | .Incomplete => "multipart stream is incomplete"
  | .NotConsumed => "multipart stream not consumed"

/-- Embedding of the error arm of `Stream for Field` (src/roa-multipart/src/
lib.rs, lines 62-88): `MultipartError::Payload(PayloadError::Io(err))` is
returned unchanged; every other error is wrapped into `io::Error::new(Other,
Error::new(INTERNAL_SERVER_ERROR, format("display-of-err" newline "read
multipart field error."), false))`. -/
def fieldErrorMap (err : MultipartError) : IoError :=
  match err with
  | .Payload (.Io e) => e
  | err => .wrapping .other
      (Status.new 500 (multipartErrorText err ++ "\nread multipart field error.") false)

/-- Embedding of `WrapError` (src/roa-multipart/src/lib.rs, line 19): a
top-level multipart error. -/
structure WrapError where
  inner : MultipartError
deriving DecidableEq, Repr

/-- Embedding of `Display for WrapError` (lines 103-107): the inner error's
display followed by "multipart form read error." on the next line. -/
def wrapErrorText (w : WrapError) : String :=
  multipartErrorText w.inner ++ "\nmultipart form read error."

/-- Embedding of `From<WrapError> for Error` (lines 97-101):
`Error::new(BAD_REQUEST, err, true)`. -/
def errorFromWrap (w : WrapError) : Status :=
  Status.new 400 (wrapErrorText w) true

end Roa

namespace Roa

/-- Log produced by a chain of logging middlewares around the logging
endpoint: registration-order pre markers, then `E`, then reverse-order post
markers. -/
theorem chain_log (names : List String) (s : List String) :
    chain (names.map logMw) logEp s
      = (.ok (), s ++ names.map (fun n => n ++ "-pre") ++ ["E"]
          ++ names.reverse.map (fun n => n ++ "-post")) := by
  induction names generalizing s with
  | nil => simp [chain, logEp]
  | cons n ns ih =>
    simp [chain, logMw, ih, List.map_append, List.append_assoc]

/-- C1: for every chain of middlewares M1..Mn registered in that order plus
terminal endpoint E, one successful request runs each middleware's pre-logic
in registration order, then the endpoint exactly once, then each middleware's
post-logic in reverse registration order; for n = 3 the shared log ends as
[M1-pre, M2-pre, M3-pre, E, M3-post, M2-post, M1-post]. -/
theorem middleware_onion_order :
    (∀ (names : List String) (s : List String),
      chain (names.map logMw) logEp s
        = (.ok (), s ++ names.map (fun n => n ++ "-pre") ++ ["E"]
            ++ names.reverse.map (fun n => n ++ "-post")))
    ∧ chain [logMw "M1", logMw "M2", logMw "M3"] logEp []
        = (.ok (), ["M1-pre", "M2-pre", "M3-pre", "E",
            "M3-post", "M2-post", "M1-post"]) := by
  refine ⟨chain_log, ?_⟩
  have h := chain_log ["M1", "M2", "M3"] []
  simpa using h

/-- C4: if middleware k returns without awaiting its Next, then the
middlewares after it and the terminal endpoint never run: whatever they are,
the mutation counter keeps only the k increments of the upstream pre-logic. -/
theorem short_circuit_stops_downstream (k : Nat) (rest : List (Middleware Nat))
    (ep : Endpoint Nat) (s : Nat) :
    chain (List.replicate k incMw ++ scMw :: rest) ep s = (.ok (), s + k) := by
  induction k generalizing s with
  | zero => simp [chain, scMw]
  | succ n ih =>
    rw [List.replicate_succ, List.cons_append]
    simp only [chain, incMw]
    rw [ih (s + 1)]
    congr 1
    omega

/-- C5: awaiting a Next continuation when there is no further middleware or
endpoint resolves immediately with a successful result and leaves the context
state untouched; the chain of zero middlewares over the fake endpoint, and
the fake middleware alone, are the same identity. -/
theorem next_identity (σ : Type) (s : σ) :
    last s = ((.ok () : Result), s)
    ∧ chain [] fakeEndpoint s = (.ok (), s)
    ∧ chain [fakeMiddleware] fakeEndpoint s = (.ok (), s) :=
  ⟨rfl, rfl, rfl⟩

/-- C6: a Next handle is single-use: the first await runs the remainder of
the chain, and awaiting the same handle again is rejected with the
distinguishable contract-violation status `reusedNextStatus` (a 500-class,
non-exposed error), not silently tolerated. -/
theorem next_single_use (σ : Type) (run : σ → Result × σ) (s t : σ) :
    (awaitNext ⟨false, run⟩ s).1 = run s
    ∧ (awaitNext (awaitNext ⟨false, run⟩ s).2 t).1
        = (.error reusedNextStatus, t)
    ∧ reusedNextStatus.status_code = 500
    ∧ reusedNextStatus.expose = false
    ∧ (.error reusedNextStatus : Result) ≠ .ok () :=
  ⟨rfl, rfl, rfl, rfl, by simp⟩

/-- Priority comparison is asymmetric: if one rank word wins against
another, the other does not also win against the first. -/
theorem rankLt_asymm : ∀ (a b : List Nat), rankLt a b = true → rankLt b a = false
  | [], [] => by simp [rankLt]
  | [], _ :: _ => by simp [rankLt]
  | _ :: _, [] => by simp [rankLt]
  | a :: as, b :: bs => by
    intro h
    simp only [rankLt] at h ⊢
    rcases Nat.lt_trichotomy a b with hab | hab | hab
    · simp [hab, Nat.lt_asymm hab]
    · subst hab
      simp only [Nat.lt_irrefl, if_false] at h ⊢
      exact rankLt_asymm as bs h
    · simp [hab, Nat.lt_asymm hab] at h

/-- Any pattern that structurally matches the path `/users/me` is either the
literal pattern itself (capturing nothing) or ranks strictly below it. -/
theorem match_users_me_shape (segs : List Segment) (caps : Caps)
    (h : matchSegs segs ["users", "me"] = some caps) :
    (segs = usersMeSegs ∧ caps = []) ∨ rankLt [0, 0] (ranksOf segs) = true := by
  cases segs with
  | nil => simp [matchSegs] at h
  | cons s rest =>
    cases s with
    | varSeg v => right; simp [ranksOf, rankLt, segRank]
    | wild w => right; simp [ranksOf, rankLt, segRank]
    | lit l =>
      simp only [matchSegs] at h
      by_cases hl : l = "users"
      · subst hl
        rw [if_pos rfl] at h
        cases rest with
        | nil => simp [matchSegs] at h
        | cons s2 rest2 =>
          cases s2 with
          | varSeg v => right; simp [ranksOf, rankLt, segRank]
          | wild w => right; simp [ranksOf, rankLt, segRank]
          | lit l2 =>
            cases rest2 with
            | cons s3 rest3 => right; simp [ranksOf, rankLt, segRank]
            | nil =>
              simp only [matchSegs] at h
              by_cases h2 : l2 = "me"
              · subst h2
                rw [if_pos rfl] at h
                simp only [matchSegs, Option.some_inj] at h
                left
                exact ⟨rfl, h.symm⟩
              · rw [if_neg h2] at h; cases h
      · rw [if_neg hl] at h; cases h

/-- `betterCand` returns one of its two arguments. -/
theorem betterCand_cases {σ : Type} (a c : RouteEntry σ × Caps) :
    betterCand a c = a ∨ betterCand a c = c := by
  unfold betterCand
  split
  · right; rfl
  · left; rfl

/-- A fold of `betterCand` returns the initial candidate or a member of the
folded list. -/
theorem foldl_betterCand_mem {σ : Type} (cs : List (RouteEntry σ × Caps))
    (a : RouteEntry σ × Caps) :
    cs.foldl betterCand a = a ∨ cs.foldl betterCand a ∈ cs := by
  induction cs generalizing a with
  | nil => left; rfl
  | cons c cs ih =>
    rcases ih (betterCand a c) with h | h
    · rcases betterCand_cases a c with h2 | h2
      · left; rw [List.foldl_cons, h, h2]
      · right; rw [List.foldl_cons, h, h2]; exact List.mem_cons_self _ _
    · right
      rw [List.foldl_cons]
      exact List.mem_cons_of_mem _ h

/-- The literal-or-outranked property is preserved by one `betterCand` step. -/
theorem betterCand_inv {σ : Type} (a c : RouteEntry σ × Caps)
    (ha : a.1.segs = usersMeSegs ∨ rankLt [0, 0] (ranksOf a.1.segs) = true)
    (hc : c.1.segs = usersMeSegs ∨ rankLt [0, 0] (ranksOf c.1.segs) = true) :
    (betterCand a c).1.segs = usersMeSegs
      ∨ rankLt [0, 0] (ranksOf (betterCand a c).1.segs) = true := by
  rcases betterCand_cases a c with h | h <;> rw [h]
  · exact ha
  · exact hc

/-- If either argument of a `betterCand` step is the literal `/users/me`
candidate, the step keeps a literal `/users/me` candidate. -/
theorem betterCand_step {σ : Type} (a c : RouteEntry σ × Caps)
    (ha : a.1.segs = usersMeSegs ∨ rankLt [0, 0] (ranksOf a.1.segs) = true)
    (hc : c.1.segs = usersMeSegs ∨ rankLt [0, 0] (ranksOf c.1.segs) = true)
    (hor : a.1.segs = usersMeSegs ∨ c.1.segs = usersMeSegs) :
    (betterCand a c).1.segs = usersMeSegs := by
  have h00 : ranksOf usersMeSegs = [0, 0] := rfl
  by_cases hlt : rankLt (ranksOf c.1.segs) (ranksOf a.1.segs) = true
  · have hbc : betterCand a c = c := by simp [betterCand, hlt]
    rw [hbc]
    rcases hc with hc | hc
    · exact hc
    · rcases ha with ha | ha
      · rw [ha, h00] at hlt
        rw [rankLt_asymm _ _ hc] at hlt
        cases hlt
      · rcases hor with h | h
        · rw [h, h00] at ha
          exact absurd ha (by decide)
        · exact h
  · have hbc : betterCand a c = a := by simp [betterCand, hlt]
    rw [hbc]
    rcases ha with ha | ha
    · exact ha
    · rcases hor with h | h
      · rw [h, h00] at ha
        exact absurd ha (by decide)
      · rw [h, h00] at hlt
        exact absurd ha hlt

/-- If the literal `/users/me` candidate is the initial candidate or occurs
in the folded list, the fold of `betterCand` ends on a literal `/users/me`
candidate. -/
theorem foldl_literal_wins {σ : Type} (cs : List (RouteEntry σ × Caps))
    (a : RouteEntry σ × Caps)
    (hall : ∀ c ∈ cs, c.1.segs = usersMeSegs ∨ rankLt [0, 0] (ranksOf c.1.segs) = true)
    (ha : a.1.segs = usersMeSegs ∨ rankLt [0, 0] (ranksOf a.1.segs) = true)
    (hex : a.1.segs = usersMeSegs ∨ ∃ c ∈ cs, c.1.segs = usersMeSegs) :
    (cs.foldl betterCand a).1.segs = usersMeSegs := by
  induction cs generalizing a with
  | nil =>
    rcases hex with h | ⟨c, hc, -⟩
    · exact h
    · exact absurd hc (List.not_mem_nil c)
  | cons c cs ih =>
    have hc := hall c (List.mem_cons_self c cs)
    rw [List.foldl_cons]
    apply ih (betterCand a c)
    · intro d hd
      exact hall d (List.mem_cons_of_mem _ hd)
    · exact betterCand_inv a c ha hc
    · rcases hex with h | ⟨d, hd, hQd⟩
      · left; exact betterCand_step a c ha hc (Or.inl h)
      · rcases List.mem_cons.mp hd with hd1 | hd2
        · left; exact betterCand_step a c ha hc (Or.inr (hd1 ▸ hQd))
        · right; exact ⟨d, hd2, hQd⟩

/-- C7: in every router containing the literal pattern `/users/me`, a request
for path `/users/me` resolves to an entry carrying the literal pattern (never
a variable or wildcard pattern), with an empty capture set; at each segment
position an exact literal outranks a variable, which outranks a wildcard. -/
theorem router_literal_wins {σ : Type} (es : List (RouteEntry σ))
    (hmem : ∃ e ∈ es, e.segs = usersMeSegs) :
    (∃ e caps, resolve es ["users", "me"] = some (e, caps)
      ∧ e.segs = usersMeSegs ∧ caps = [])
    ∧ segRank (.lit "me") < segRank (.varSeg "id")
    ∧ segRank (.varSeg "id") < segRank (.wild "w") := by
  refine ⟨?_, by decide, by decide⟩
  obtain ⟨e, hes, hsegs⟩ := hmem
  have hme : matchSegs usersMeSegs ["users", "me"] = some [] := rfl
  have hcand : (e, ([] : Caps)) ∈ candidates es ["users", "me"] := by
    simp only [candidates, List.mem_filterMap]
    exact ⟨e, hes, by rw [hsegs, hme]; rfl⟩
  rcases hcs : candidates es ["users", "me"] with - | ⟨c, cs⟩
  · rw [hcs] at hcand
    exact absurd hcand (List.not_mem_nil _)
  · have hall : ∀ d ∈ c :: cs,
        d.1.segs = usersMeSegs ∨ rankLt [0, 0] (ranksOf d.1.segs) = true := by
      intro d hd
      rw [← hcs] at hd
      simp only [candidates, List.mem_filterMap] at hd
      obtain ⟨a, -, hfa⟩ := hd
      rcases hma : matchSegs a.segs ["users", "me"] with - | caps <;> rw [hma] at hfa
      · cases hfa
      · simp only [Option.map] at hfa
        injection hfa with hfa
        subst hfa
        rcases match_users_me_shape a.segs caps hma with ⟨h1, -⟩ | h1
        · left; exact h1
        · right; exact h1
    have hres : (cs.foldl betterCand c).1.segs = usersMeSegs := by
      apply foldl_literal_wins cs c
        (fun d hd => hall d (List.mem_cons_of_mem _ hd))
        (hall c (List.mem_cons_self _ _))
      rw [hcs] at hcand
      rcases List.mem_cons.mp hcand with h | h
      · left; rw [← h]; exact hsegs
      · right; exact ⟨(e, []), h, hsegs⟩
    have hr : resolve es ["users", "me"] = some (cs.foldl betterCand c) := by
      unfold resolve
      rw [hcs]
    have hbmem : cs.foldl betterCand c ∈ candidates es ["users", "me"] := by
      rw [hcs]
      rcases foldl_betterCand_mem cs c with h | h
      · rw [h]; exact List.mem_cons_self _ _
      · exact List.mem_cons_of_mem _ h
    have hbcaps : (cs.foldl betterCand c).2 = [] := by
      simp only [candidates, List.mem_filterMap] at hbmem
      obtain ⟨a, -, hfa⟩ := hbmem
      rcases hma : matchSegs a.segs ["users", "me"] with - | caps <;> rw [hma] at hfa
      · cases hfa
      · simp only [Option.map] at hfa
        injection hfa with hfa
        have ha1 : a.segs = usersMeSegs := by
          rw [← hfa] at hres
          exact hres
        rw [ha1, hme] at hma
        injection hma with hma
        rw [← hfa, hma]
    exact ⟨(cs.foldl betterCand c).1, (cs.foldl betterCand c).2,
      by rw [hr], hres, hbcaps⟩

/-- Witness for C7 at a concrete two-entry router holding `/users/:id` and
`/users/me`. -/
theorem router_literal_wins_witness :
    (∃ e caps, resolve [usersIdEntry, usersMeEntry] ["users", "me"] = some (e, caps)
      ∧ e.segs = usersMeSegs ∧ caps = [])
    ∧ segRank (.lit "me") < segRank (.varSeg "id")
    ∧ segRank (.varSeg "id") < segRank (.wild "w") :=
  router_literal_wins [usersIdEntry, usersMeEntry]
    ⟨usersMeEntry, List.mem_cons_of_mem _ (List.mem_cons_self _ _), rfl⟩

/-- C3 counterexample: for the pattern `/users` registered only for GET, a
POST request yields the 405 outcome produced by `method_not_allowed`, whose
Status carries only a code, a message and the expose flag; the message names
the requested method POST and does not mention GET, so the outcome does not
carry the entry's allowed-method set. -/
theorem method_405_allowed_set_counterexample :
    dispatch [usersOnlyGet] .POST ["users"] []
      = (.error (Status.new 405 "Method POST not allowed" true), [])
    ∧ containsSub "Method POST not allowed" "GET" = false
    ∧ containsSub "Method POST not allowed" "POST" = true :=
  ⟨rfl, by decide, by decide⟩

/-- C3 amended: for every route entry and every request whose path
structurally matches the entry but whose method is absent from the entry's
method map, dispatch fails with the `method_not_allowed` outcome: a 405
Status whose exposed message names the requested method (and which does not
carry the entry's allowed-method set). -/
theorem method_mismatch_405 (e : RouteEntry RCtx) (m : Method)
    (path : List String) (caps : Caps) (st : RCtx)
    (hm : matchSegs e.segs path = some caps)
    (habs : lookupMethod e.methods m = none) :
    dispatch [e] m path st = (method_not_allowed m, st)
    ∧ method_not_allowed m
        = .error (Status.new 405 ("Method " ++ m.toString ++ " not allowed") true) := by
  refine ⟨?_, rfl⟩
  have hcand : candidates [e] path = [(e, caps)] := by
    simp [candidates, List.filterMap, hm]
  have hres : resolve [e] path = some (e, caps) := by
    unfold resolve
    rw [hcand]
    exact rfl
  simp [dispatch, hres, habs]

/-- Witness for the amended C3 at the GET-only entry requested with POST. -/
theorem method_mismatch_405_witness :
    dispatch [usersOnlyGet] .POST ["users"] [] = (method_not_allowed .POST, [])
    ∧ method_not_allowed .POST
        = .error (Status.new 405 ("Method " ++ Method.toString .POST ++ " not allowed") true) :=
  method_mismatch_405 usersOnlyGet .POST ["users"] [] [] rfl rfl

/-- C8: a trailing-wildcard pattern whose fixed part matches the leading path
segments captures the whole remaining suffix, separators included, as the one
wildcard variable; concretely, dispatching `/files/a/b/c` against the
`/files/` wildcard entry succeeds and runs the endpoint on a store holding
the variable `path` bound to `a/b/c`. -/
theorem wildcard_captures_suffix :
    (∀ (fixed : List Segment) (n : String) (front rest : List String) (caps0 : Caps),
      (∀ w, Segment.wild w ∉ fixed) →
      matchSegs fixed front = some caps0 →
      matchSegs (fixed ++ [Segment.wild n]) (front ++ rest)
        = some (caps0 ++ [(n, String.intercalate "/" rest)]))
    ∧ dispatch [filesEntry] .GET ["files", "a", "b", "c"] []
        = (.ok (), [("path", "a/b/c")]) := by
  constructor
  · intro fixed
    induction fixed with
    | nil =>
      intro n front rest caps0 hw0 hm
      cases front with
      | nil =>
        simp only [matchSegs] at hm
        injection hm with hm
        subst hm
        simp [matchSegs]
      | cons x xs => simp [matchSegs] at hm
    | cons s fs ih =>
      intro n front rest caps0 hw hm
      cases s with
      | wild w => exact absurd (List.mem_cons_self _ _) (hw w)
      | lit l =>
        cases front with
        | nil => simp [matchSegs] at hm
        | cons x xs =>
          simp only [matchSegs] at hm
          by_cases hl : l = x
          · rw [if_pos hl] at hm
            have hrec := ih n xs rest caps0
              (fun w h => hw w (List.mem_cons_of_mem _ h)) hm
            simp only [List.cons_append, matchSegs, if_pos hl]
            exact hrec
          · rw [if_neg hl] at hm
            cases hm
      | varSeg v =>
        cases front with
        | nil => simp [matchSegs] at hm
        | cons x xs =>
          simp only [matchSegs] at hm
          rcases hmi : matchSegs fs xs with - | caps1 <;> rw [hmi] at hm
          · cases hm
          · simp only [Option.map] at hm
            injection hm with hm
            subst hm
            have hrec := ih n xs rest caps1
              (fun w h => hw w (List.mem_cons_of_mem _ h)) hmi
            simp [List.cons_append, matchSegs, hrec, Option.map]
  · rfl

/-- Witness for C8's general clause at the `/files/` wildcard pattern and the
path `/files/a/b/c`. -/
theorem wildcard_captures_suffix_witness :
    matchSegs ([Segment.lit "files"] ++ [Segment.wild "path"])
        (["files"] ++ ["a", "b", "c"])
      = some ([] ++ [("path", String.intercalate "/" ["a", "b", "c"])]) :=
  wildcard_captures_suffix.1 [Segment.lit "files"] "path" ["files"]
    ["a", "b", "c"] [] (fun w h => by simp at h) rfl

/-- C2: whenever the chain ends in an error, `serve` invokes the fallback
status handler on the categorized fault and still returns a Response; an
uncategorized fault is categorized as a generic 500 Status with expose set
to false, and a non-exposed Status never leaks its message into the
synthesized Response. -/
theorem serve_fallback_on_error (σ : Type) (run : σ → Except Fault Unit × σ)
    (respOf : σ → Response) (s s2 : σ) (f : Fault)
    (h : run s = (.error f, s2)) :
    serve run respOf s = default_status_handler (categorize f)
    ∧ (∀ d, categorize (.uncategorized d) = Status.new 500 "Internal Server Error" false)
    ∧ (∀ st : Status, st.expose = false →
        (default_status_handler st).message = "Internal Server Error"
        ∧ (default_status_handler st).status = st.status_code) := by
  refine ⟨?_, fun d => rfl, fun st hst => ⟨by simp [default_status_handler, hst], rfl⟩⟩
  simp [serve, h]

/-- Witness for C2 on a chain that fails with an uncategorized fault. -/
theorem serve_fallback_on_error_witness :
    serve faultyRun constResp 0
      = default_status_handler (categorize (.uncategorized "worker panicked"))
    ∧ (∀ d, categorize (.uncategorized d) = Status.new 500 "Internal Server Error" false)
    ∧ (∀ st : Status, st.expose = false →
        (default_status_handler st).message = "Internal Server Error"
        ∧ (default_status_handler st).status = st.status_code) :=
  serve_fallback_on_error Nat faultyRun constResp 0 0
    (.uncategorized "worker panicked") rfl

/-- C9: storing a value under a key with type tag A and loading the key with
a different tag B yields the distinguishable `typeMismatch` outcome, which is
neither a loaded value (no default, no coercion) nor a missing key, and the
total function never crashes. -/
theorem store_type_mismatch (b : Bucket) (k v tagA tagB : String)
    (hne : tagA ≠ tagB) :
    bucketLoad (bucketStore b k ⟨tagA, v⟩).2 k tagB
      = .typeMismatch tagB tagA
    ∧ (∀ w, (.typeMismatch tagB tagA : LoadOutcome) ≠ .loaded w)
    ∧ (.typeMismatch tagB tagA : LoadOutcome) ≠ .missing := by
  refine ⟨?_, fun w => by simp, by simp⟩
  simp [bucketLoad, bucketStore, bucketFind, hne]

/-- Witness for C9 at key "id" stored as a u64 and loaded as a String. -/
theorem store_type_mismatch_witness :
    bucketLoad (bucketStore [] "id" ⟨"u64", "42"⟩).2 "id" "String"
      = .typeMismatch "String" "u64"
    ∧ (∀ w, (.typeMismatch "String" "u64" : LoadOutcome) ≠ .loaded w)
    ∧ (.typeMismatch "String" "u64" : LoadOutcome) ≠ .missing :=
  store_type_mismatch [] "id" "42" "u64" "String" (by decide)

/-- C10: a top-level multipart error converts to a Status with code 400 and
expose true; a field-body error that is a payload I/O error is returned
unchanged, and any other field-body error is wrapped into an Other-kind
io::Error carrying a Status with code 500 and expose false. -/
theorem multipart_error_mapping :
    (∀ w : WrapError,
      (errorFromWrap w).status_code = 400 ∧ (errorFromWrap w).expose = true)
    ∧ (∀ e : IoError, fieldErrorMap (.Payload (.Io e)) = e)
    ∧ (∀ err : MultipartError, (∀ e : IoError, err ≠ .Payload (.Io e)) →
        fieldErrorMap err
          = .wrapping .other
              (Status.new 500
                (multipartErrorText err ++ "\nread multipart field error.")
                false)) := by
  refine ⟨fun w => ⟨rfl, rfl⟩, fun e => rfl, ?_⟩
  intro err hne
  match err with
  | .Payload (.Io e) => exact absurd rfl (hne e)
  | .Payload (.Incomplete e) => rfl
  | .Payload .Overflow => rfl
  | .Payload .UnknownLength => rfl
  | .NoContentType => rfl
  | .ParseContentType => rfl
  | .Boundary => rfl
  | .Nested => rfl
  | .Incomplete => rfl
  | .NotConsumed => rfl

/-- Witness for C10's wrapping clause at a boundary error. -/
theorem multipart_error_mapping_witness :
    fieldErrorMap .Boundary
      = .wrapping .other
          (Status.new 500
            (multipartErrorText .Boundary ++ "\nread multipart field error.")
            false) :=
  multipart_error_mapping.2.2 .Boundary (fun _ h => MultipartError.noConfusion h)

end Roa
